import Mathlib

/-!
Verification of the PowerGrid+ ETL core (`powergrid/transform.py` and
`powergrid/anomalies.py`) against its natural-language specification.

The embedding models a pandas dataframe as a `List` of records.  Missing
values (pandas `NaN` in a float column) are modelled with `Option ℚ` for
plain data columns, and with the four-constructor type `PF` (a rational
extended with `nan`, `+inf`, `-inf`) where IEEE special values can actually
arise or be compared (the `kw_pct_change` column, and every column read
back by the anomaly stage).  Timestamps are modelled as minutes since an
epoch: `_engineer_features` consumes them only through ordering and the
hour/minute wall-clock components.
-/

namespace PowerGrid

/-- Pandas float scalar as observed by comparisons: a rational, or one of
the IEEE special values `nan`, `+inf`, `-inf`. -/
inductive PF where
  | nan
  | pinf
  | ninf
  | val (q : ℚ)
deriving DecidableEq, Repr

/-- IEEE `<` on `PF`: any comparison with `nan` is `false`. -/
def PF.ltb : PF → PF → Bool
  | .val a, .val b => a < b
  | .val _, .pinf => true
  | .ninf, .val _ => true
  | .ninf, .pinf => true
  | _, _ => false

/-- IEEE `>` on `PF`. -/
def PF.gtb (a b : PF) : Bool := PF.ltb b a

/-- IEEE `==` on `PF`: `nan` is equal to nothing, infinities only to
themselves. -/
def PF.eqb : PF → PF → Bool
  | .val a, .val b => a = b
  | .pinf, .pinf => true
  | .ninf, .ninf => true
  | _, _ => false

/-- Pandas `Series.fillna(0)` on a scalar: replaces `nan` (and only `nan`)
by `0`; infinities are NOT missing values and pass through. -/
def PF.fillZero : PF → PF
  | .nan => .val 0
  | .pinf => .pinf
  | .ninf => .ninf
  | .val q => .val q

/-! ### Type Normalizer (`transform._clean_types`) -/

/-- A raw `timestamp` cell: either parseable to an instant (minutes since
the epoch) or not. -/
inductive RawTS where
  | valid (minutes : ℕ)
  | invalid
deriving DecidableEq, Repr

/-- A raw `meter_id` cell: either convertible by `astype(int)` or not. -/
inductive RawInt where
  | intLike (z : ℤ)
  | nonInt
deriving DecidableEq, Repr

/-- A raw numeric cell, as seen by `pd.to_numeric(..., errors="coerce")`:
either a number or something non-numeric (including an already-missing
value), which coerces to `NaN`. -/
inductive RawNum where
  | num (q : ℚ)
  | nonNumeric
deriving DecidableEq, Repr

/-- One raw input row, fields as in the generated CSV/Parquet. -/
structure RawRec where
  timestamp : RawTS
  meter_id : RawInt
  region : String
  voltage : RawNum
  current : RawNum
  power_kw : RawNum
  power_factor : RawNum
  temperature_c : RawNum
deriving DecidableEq, Repr

/-- a type-normalized row: `timestamp` an instant, `meter_id` an integer,
numeric columns floats with missing values as `none`. -/
structure CRec where
  timestamp : ℕ
  meter_id : ℤ
  region : String
  voltage : Option ℚ
  current : Option ℚ
  power_kw : Option ℚ
  power_factor : Option ℚ
  temperature_c : Option ℚ
deriving DecidableEq, Repr

/-- `pd.to_datetime` on one cell with the default `errors="raise"`: an
unparseable value raises. -/
def toDatetime : RawTS → Except String ℕ
  | .valid t => .ok t
  | .invalid => .error "could not parse timestamp"

/-- `Series.astype(int)` on one cell: a non-integer-convertible value
raises. -/
def astypeInt : RawInt → Except String ℤ
  | .intLike z => .ok z
  | .nonInt => .error "invalid literal for int"

/-- `pd.to_numeric(..., errors="coerce")` on one cell: unparseable values
become `NaN` (`none`), never an error. -/
def toNumeric : RawNum → Option ℚ
  | .num q => some q
  | .nonNumeric => none

/-- `transform._clean_types`, row-wise rendering of the column-wise pandas
conversions: `timestamp` via `pd.to_datetime` (default `errors="raise"`),
`meter_id` via `astype(int)` (raises on failure), `region` kept as a
categorical label, and the five float columns via
`pd.to_numeric(errors="coerce")`.  The whole conversion errors exactly when
some `timestamp` or `meter_id` cell fails to convert, matching the pandas
column operations raising. -/
def cleanTypes : List RawRec → Except String (List CRec)
  | [] => Except.ok []
  | r :: rest =>
    match toDatetime r.timestamp with
    | Except.error e => Except.error e
    | Except.ok t =>
      match astypeInt r.meter_id with
      | Except.error e => Except.error e
      | Except.ok m =>
        match cleanTypes rest with
        | Except.error e => Except.error e
        | Except.ok cs =>
          Except.ok ({ timestamp := t, meter_id := m, region := r.region,
                       voltage := toNumeric r.voltage,
                       current := toNumeric r.current,
                       power_kw := toNumeric r.power_kw,
                       power_factor := toNumeric r.power_factor,
                       temperature_c := toNumeric r.temperature_c } :: cs)

/-! ### Value Sanitizer (`transform._clean_values`) -/

/-- `df.loc[pred, col] = None` on one cell: a present value satisfying the
predicate becomes missing; a missing cell stays missing (a pandas
comparison with `NaN` is false, so `NaN` cells are never selected). -/
def nullifyIf (p : ℚ → Bool) : Option ℚ → Option ℚ
  | none => none
  | some v => if p v then none else some v

/-- `df.loc[df["power_factor"] > 1.0, "power_factor"] = 1.0` on one cell. -/
def clampAboveOne : Option ℚ → Option ℚ
  | none => none
  | some v => if 1 < v then some 1 else some v

/-- The five `df.loc` updates of `_clean_values`, applied to one row in
source order: nullify `voltage < 50`, `current < 0`, `power_kw < 0`; clamp
`power_factor > 1.0` to `1.0`, then nullify `power_factor < 0.0`. -/
def sanitizeRow (r : CRec) : CRec :=
  { r with
    voltage := nullifyIf (fun v => v < 50) r.voltage,
    current := nullifyIf (fun c => c < 0) r.current,
    power_kw := nullifyIf (fun p => p < 0) r.power_kw,
    power_factor := nullifyIf (fun p => p < 0) (clampAboveOne r.power_factor) }

/-- `transform._clean_values`: the bound rules followed by
`df.dropna(subset=["voltage", "current", "power_kw"])`. -/
def cleanValues (df : List CRec) : List CRec :=
  (df.map sanitizeRow).filter
    (fun c => c.voltage.isSome && c.current.isSome && c.power_kw.isSome)

/-! ### Feature Engineer (`transform._engineer_features`)

The stage runs on the sanitizer's output, where `voltage`, `current` and
`power_kw` are guaranteed present and `timestamp` parsed, so its input
record type carries those columns as plain rationals.  `df.sort_values` is
embedded as a stable sort on the `(meter_id, timestamp)` key. -/

/-- A sanitized row as seen by `_engineer_features`: the three core
physical columns are present (guaranteed by `_clean_values`). -/
structure SanRec where
  meter_id : ℤ
  timestamp : ℕ
  voltage : ℚ
  current : ℚ
  power_kw : ℚ
  power_factor : Option ℚ
  temperature_c : Option ℚ
deriving DecidableEq, Repr

/-- An enriched row: a sanitized row plus the three derived columns.
`kw_pct_change` lives in `PF` because division by a zero previous value
produces an IEEE infinity. -/
structure FRec where
  meter_id : ℤ
  timestamp : ℕ
  voltage : ℚ
  current : ℚ
  power_kw : ℚ
  power_factor : Option ℚ
  temperature_c : Option ℚ
  hour_of_day : ℚ
  rolling_kw_1h : ℚ
  kw_pct_change : PF
deriving DecidableEq, Repr

/-- The `df.sort_values(["meter_id", "timestamp"])` key as a relation. -/
def recLE (a b : SanRec) : Prop :=
  a.meter_id < b.meter_id ∨ (a.meter_id = b.meter_id ∧ a.timestamp ≤ b.timestamp)

instance : DecidableRel recLE := fun a b => by
  unfold recLE; infer_instance

instance : IsTotal SanRec recLE := by
  constructor
  intro a b
  rcases lt_trichotomy a.meter_id b.meter_id with h | h | h
  · exact Or.inl (Or.inl h)
  · rcases Nat.le_total a.timestamp b.timestamp with ht | ht
    · exact Or.inl (Or.inr ⟨h, ht⟩)
    · exact Or.inr (Or.inr ⟨h.symm, ht⟩)
  · exact Or.inr (Or.inl h)

instance : IsTrans SanRec recLE := by
  constructor
  intro a b c hab hbc
  rcases hab with h1 | ⟨he1, ht1⟩
  · rcases hbc with h2 | ⟨he2, _⟩
    · exact Or.inl (h1.trans h2)
    · exact Or.inl (he2 ▸ h1)
  · rcases hbc with h2 | ⟨he2, ht2⟩
    · exact Or.inl (he1 ▸ h2)
    · exact Or.inr ⟨he1.trans he2, ht1.trans ht2⟩

/-- `ts.dt.hour + ts.dt.minute / 60.0` for a timestamp in minutes since the
epoch. -/
def hourOfDay (t : ℕ) : ℚ := ((t / 60) % 24 : ℕ) + ((t % 60 : ℕ) : ℚ) / 60

/-- One cell of `rolling(window=4, min_periods=1).mean()` over the power
series `ps` of a single meter: the mean of the trailing window of up to 4
samples ending at position `i`. -/
def winMean (ps : List ℚ) (i : ℕ) : ℚ :=
  let w := (ps.take (i + 1)).drop (i + 1 - 4)
  w.sum / (w.length : ℚ)

/-- `pct_change` of one step, `cur / prev - 1`, with IEEE division: a zero
previous value yields `nan` (0/0), `+inf` or `-inf`. -/
def pctChange (prev cur : ℚ) : PF :=
  if prev = 0 then
    if cur = 0 then PF.nan else if 0 < cur then PF.pinf else PF.ninf
  else PF.val ((cur - prev) / prev)

/-- One cell of `groupby("meter_id")["power_kw"].pct_change().fillna(0)`
over the power series `ps` of a single meter: the first sample of the
group is `NaN`, filled to `0`. -/
def pctAt (ps : List ℚ) (i : ℕ) : PF :=
  PF.fillZero (if i = 0 then PF.nan else pctChange (ps.getD (i - 1) 0) (ps.getD i 0))

/-- Assemble one enriched row from its base row `r`, the power series `ps`
of the row's meter group, and the row's position `j` inside that group. -/
def mkFeatRow (ps : List ℚ) (r : SanRec) (j : ℕ) : FRec :=
  { meter_id := r.meter_id, timestamp := r.timestamp, voltage := r.voltage,
    current := r.current, power_kw := r.power_kw,
    power_factor := r.power_factor, temperature_c := r.temperature_c,
    hour_of_day := hourOfDay r.timestamp,
    rolling_kw_1h := winMean ps j,
    kw_pct_change := pctAt ps j }

/-- Pair every row with its position inside its own meter group, scanning
left to right; `seen` is the multiset of meter ids already passed (the
groupby cursor). -/
def tagIdx (seen : List ℤ) : List SanRec → List (SanRec × ℕ)
  | [] => []
  | r :: rest =>
    (r, (seen.filter (fun z => z = r.meter_id)).length) ::
      tagIdx (r.meter_id :: seen) rest

/-- `transform._engineer_features`: sort by `(meter_id, timestamp)`, then
give every row its `hour_of_day` and, from its own meter's power series
(the `groupby("meter_id")` group), its `rolling_kw_1h` (window 4,
min_periods 1) and `kw_pct_change` (`pct_change().fillna(0)`), each row's
value taken at its position inside its group — the row alignment the
pandas index restores after `reset_index(level=0, drop=True)`. -/
def engineerFeatures (df : List SanRec) : List FRec :=
  let s := List.insertionSort recLE df
  (tagIdx [] s).map (fun rj =>
    mkFeatRow ((s.filter (fun x => x.meter_id = rj.1.meter_id)).map
        (fun x => x.power_kw)) rj.1 rj.2)

/-- Forget the three derived columns of an enriched row (re-running the
stage overwrites them from the base columns). -/
def stripDerived (fr : FRec) : SanRec :=
  { meter_id := fr.meter_id, timestamp := fr.timestamp, voltage := fr.voltage,
    current := fr.current, power_kw := fr.power_kw,
    power_factor := fr.power_factor, temperature_c := fr.temperature_c }

/-- The time-ordered subsequence of the enriched output belonging to one
meter. -/
def meterRows (df : List SanRec) (m : ℤ) : List FRec :=
  (engineerFeatures df).filter (fun fr => fr.meter_id = m)

/-! ### Anomaly Rule Engine (`anomalies._apply_rules`) -/

/-- A row of the persisted processed dataset as read back by the anomaly
stage; only the four columns the rules consult.  Each is a pandas float
scalar, so comparisons follow IEEE semantics. -/
structure ARec where
  voltage : PF
  current : PF
  power_kw : PF
  kw_pct_change : PF
deriving DecidableEq, Repr

/-- `row["voltage"] < 180 or row["voltage"] > 250`. -/
def voltageRule (row : ARec) : Bool :=
  PF.ltb row.voltage (PF.val 180) || PF.gtb row.voltage (PF.val 250)

/-- `row["current"] < 0 or row["current"] > 50`. -/
def currentRule (row : ARec) : Bool :=
  PF.ltb row.current (PF.val 0) || PF.gtb row.current (PF.val 50)

/-- `row["kw_pct_change"] > 1.5`. -/
def spikeRule (row : ARec) : Bool :=
  PF.gtb row.kw_pct_change (PF.val (3 / 2))

/-- `row["kw_pct_change"] < -0.8`. -/
def dropRule (row : ARec) : Bool :=
  PF.ltb row.kw_pct_change (PF.val (-(4 / 5)))

/-- `row["power_kw"] == 0 and row["voltage"] > 150 and row["current"] > 0.1`. -/
def zeroPowerRule (row : ARec) : Bool :=
  PF.eqb row.power_kw (PF.val 0) && PF.gtb row.voltage (PF.val 150) &&
    PF.gtb row.current (PF.val (1 / 10))

/-- The reason strings accumulated for one row by `_apply_rules`, appended
in source order. -/
def rowReasons (row : ARec) : List String :=
  (if voltageRule row then ["voltage_out_of_range"] else []) ++
  (if currentRule row then ["current_out_of_range"] else []) ++
  (if spikeRule row then ["sudden_spike"] else []) ++
  (if dropRule row then ["sudden_drop"] else []) ++
  (if zeroPowerRule row then ["zero_power_but_active_line"] else [])

/-- One output row of the anomaly stage: the input row plus the two
annotation columns. -/
structure TaggedRec where
  row : ARec
  anomaly_reason : Option String
  anomaly_flag : Bool
deriving DecidableEq, Repr

/-- The body of the `_apply_rules` loop for one row: `None` when no rule
triggered, otherwise the reasons joined with a comma; then
`anomaly_flag = anomaly_reason.notna()`. -/
def tagRow (row : ARec) : TaggedRec :=
  let r := rowReasons row
  let reason : Option String :=
    if r.length = 0 then none else some (String.intercalate "," r)
  { row := row, anomaly_reason := reason, anomaly_flag := reason.isSome }

/-- `anomalies._apply_rules`: one annotated output row per input row. -/
def applyRules (df : List ARec) : List TaggedRec := df.map tagRow

/-- The declared rule battery, in the order the source evaluates and
appends them. -/
def ruleTable : List (String × (ARec → Bool)) :=
  [("voltage_out_of_range", voltageRule),
   ("current_out_of_range", currentRule),
   ("sudden_spike", spikeRule),
   ("sudden_drop", dropRule),
   ("zero_power_but_active_line", zeroPowerRule)]

/-! ### Helper lemmas: group extraction from the feature engineer -/

/-- Pair every element with its index, starting at `n`. -/
def idxFrom (n : ℕ) : List SanRec → List (SanRec × ℕ)
  | [] => []
  | a :: l => (a, n) :: idxFrom (n + 1) l

/-- A group's rows enriched in isolation: row `j` of the group `g` gets its
rolling mean and percent change at position `j` of the group's own power
series. -/
def groupFeat (g : List SanRec) : List FRec :=
  (idxFrom 0 g).map (fun rj =>
    mkFeatRow (g.map (fun x => x.power_kw)) rj.1 rj.2)

theorem idxFrom_map_fst (n : ℕ) (l : List SanRec) :
    (idxFrom n l).map Prod.fst = l := by
  induction l generalizing n with
  | nil => rfl
  | cons a t ih => simp [idxFrom, ih]

theorem mem_idxFrom (l : List SanRec) :
    ∀ (x : SanRec × ℕ) (n : ℕ), x ∈ idxFrom n l → x.1 ∈ l := by
  induction l with
  | nil => intro x n h; cases h
  | cons a t ih =>
    intro x n h
    simp only [idxFrom, List.mem_cons] at h
    rcases h with h | h
    · rw [h]; exact List.mem_cons_self a t
    · exact List.mem_cons_of_mem a (ih x (n + 1) h)

theorem getElem?_idxFrom (n k : ℕ) (l : List SanRec) :
    (idxFrom n l)[k]? = l[k]?.map (fun r => (r, n + k)) := by
  induction l generalizing n k with
  | nil => simp [idxFrom]
  | cons a t ih =>
    cases k with
    | zero => simp [idxFrom]
    | succ k =>
      simp only [idxFrom, List.getElem?_cons_succ, ih]
      cases t[k]? <;> simp [Nat.add_assoc, Nat.add_comm 1 k]

theorem tagIdx_map_fst (seen : List ℤ) (s : List SanRec) :
    (tagIdx seen s).map Prod.fst = s := by
  induction s generalizing seen with
  | nil => rfl
  | cons r t ih => simp [tagIdx, ih]

/-- Restricting the groupby cursor's output to one meter: the rows of that
meter appear with consecutive group positions starting at the number of
occurrences of the meter already `seen`. -/
theorem tagIdx_filter (m : ℤ) (s : List SanRec) : ∀ seen : List ℤ,
    (tagIdx seen s).filter (fun rj => rj.1.meter_id = m)
      = idxFrom ((seen.filter (fun z => z = m)).length)
          (s.filter (fun r => r.meter_id = m)) := by
  induction s with
  | nil => intro seen; rfl
  | cons r t ih =>
    intro seen
    by_cases h : r.meter_id = m
    · subst h
      simp [tagIdx, idxFrom, List.filter_cons, ih]
    · simp [tagIdx, List.filter_cons, h, ih]

theorem filter_map_comm {α β} (f : α → β) (p : β → Bool) (l : List α) :
    (l.map f).filter p = (l.filter (fun a => p (f a))).map f := by
  induction l with
  | nil => rfl
  | cons a t ih =>
    simp only [List.map_cons, List.filter_cons, ih]
    cases p (f a) <;> simp

@[simp]
theorem mkFeatRow_meter_id (ps : List ℚ) (r : SanRec) (j : ℕ) :
    (mkFeatRow ps r j).meter_id = r.meter_id := rfl

@[simp]
theorem mkFeatRow_power_kw (ps : List ℚ) (r : SanRec) (j : ℕ) :
    (mkFeatRow ps r j).power_kw = r.power_kw := rfl

@[simp]
theorem stripDerived_mkFeatRow (ps : List ℚ) (r : SanRec) (j : ℕ) :
    stripDerived (mkFeatRow ps r j) = r := rfl

/-- The feature engineer's rows for one meter are exactly that meter's
group, enriched in isolation. -/
theorem engineerFeatures_filter (df : List SanRec) (m : ℤ) :
    meterRows df m
      = groupFeat ((List.insertionSort recLE df).filter
          (fun r => r.meter_id = m)) := by
  unfold meterRows engineerFeatures groupFeat
  rw [filter_map_comm]
  simp only [mkFeatRow_meter_id]
  rw [tagIdx_filter]
  apply List.map_congr_left
  intro rj hrj
  have h1 : rj.1 ∈ (List.insertionSort recLE df).filter
      (fun r => r.meter_id = m) :=
    mem_idxFrom _ rj _ hrj
  have h2 : rj.1.meter_id = m := by
    have := List.of_mem_filter h1
    simpa using this
  rw [h2]

theorem groupFeat_getElem? (g : List SanRec) (k : ℕ) :
    (groupFeat g)[k]?
      = g[k]?.map (fun r => mkFeatRow (g.map (fun x => x.power_kw)) r k) := by
  unfold groupFeat
  rw [List.getElem?_map, getElem?_idxFrom]
  cases g[k]? <;> simp

theorem groupFeat_map_power (g : List SanRec) :
    (groupFeat g).map (fun fr => fr.power_kw) = g.map (fun x => x.power_kw) := by
  unfold groupFeat
  rw [List.map_map]
  have : ((fun fr : FRec => fr.power_kw) ∘
      fun rj : SanRec × ℕ =>
        mkFeatRow (g.map fun x => x.power_kw) rj.1 rj.2)
      = (fun x : SanRec => x.power_kw) ∘ Prod.fst := rfl
  rw [this, ← List.map_map, idxFrom_map_fst]

/-! ### Helper lemmas: stable sort commutes with a meter filter -/

theorem orderedInsert_of_forall_le {α} (r : α → α → Prop) [DecidableRel r]
    (a : α) (l : List α) (h : ∀ b ∈ l, r a b) :
    List.orderedInsert r a l = a :: l := by
  cases l with
  | nil => rfl
  | cons b t => exact List.orderedInsert_of_le r t (h b (List.mem_cons_self b t))

theorem filter_orderedInsert {α} (r : α → α → Prop) [DecidableRel r]
    [IsTrans α r] (p : α → Bool) (a : α) :
    ∀ l : List α, l.Sorted r →
      (List.orderedInsert r a l).filter p
        = if p a then List.orderedInsert r a (l.filter p) else l.filter p := by
  intro l
  induction l with
  | nil =>
    intro _
    cases hpa : p a <;> simp [List.orderedInsert, List.filter_cons, hpa]
  | cons b t ih =>
    intro hs
    have hbt : ∀ c ∈ t, r b c := List.rel_of_sorted_cons hs
    by_cases hab : r a b
    · rw [List.orderedInsert_of_le r t hab]
      by_cases hpb : p b = true
      · simp only [List.filter_cons, hpb, if_true]
        cases hpa : p a
        · simp
        · simp only [if_true]
          rw [orderedInsert_of_forall_le]
          intro c hc
          rcases List.mem_cons.mp hc with rfl | hc
          · exact hab
          · exact Trans.trans hab (hbt c (List.mem_filter.mp hc).1)
      · simp only [List.filter_cons, hpb, if_false, Bool.false_eq_true]
        cases hpa : p a
        · simp
        · simp only [if_true]
          rw [orderedInsert_of_forall_le]
          intro c hc
          exact Trans.trans hab (hbt c (List.mem_filter.mp hc).1)
    · rw [show List.orderedInsert r a (b :: t)
          = b :: List.orderedInsert r a t from by
        simp [List.orderedInsert, hab]]
      by_cases hpb : p b = true
      · simp only [List.filter_cons, hpb, if_true, ih hs.of_cons]
        cases hpa : p a
        · simp
        · simp only [if_true]
          rw [show List.orderedInsert r a (b :: t.filter p)
              = b :: List.orderedInsert r a (t.filter p) from by
            simp [List.orderedInsert, hab]]
      · simp only [List.filter_cons, hpb, if_false, Bool.false_eq_true,
          ih hs.of_cons]

theorem filter_insertionSort {α} (r : α → α → Prop) [DecidableRel r]
    [IsTotal α r] [IsTrans α r] (p : α → Bool) (l : List α) :
    (List.insertionSort r l).filter p = List.insertionSort r (l.filter p) := by
  induction l with
  | nil => rfl
  | cons a t ih =>
    rw [show List.insertionSort r (a :: t)
        = List.orderedInsert r a (List.insertionSort r t) from rfl]
    rw [filter_orderedInsert r p a _ (List.sorted_insertionSort r t), ih]
    simp only [List.filter_cons]
    cases hpa : p a
    · simp
    · simp [List.insertionSort]

/-! ### Helper lemmas: IEEE comparisons with `nan`, rule aggregation -/

@[simp]
theorem PF.ltb_nan_left (x : PF) : PF.ltb PF.nan x = false := by
  cases x <;> rfl

@[simp]
theorem PF.ltb_nan_right (x : PF) : PF.ltb x PF.nan = false := by
  cases x <;> rfl

@[simp]
theorem PF.eqb_nan_left (x : PF) : PF.eqb PF.nan x = false := by
  cases x <;> rfl

@[simp]
theorem PF.eqb_nan_right (x : PF) : PF.eqb x PF.nan = false := by
  cases x <;> rfl

theorem tagRow_spec (row : ARec) :
    ((tagRow row).anomaly_flag = true
      ↔ (voltageRule row || currentRule row || spikeRule row || dropRule row
          || zeroPowerRule row) = true) ∧
    ((tagRow row).anomaly_reason = none
      ↔ (voltageRule row || currentRule row || spikeRule row || dropRule row
          || zeroPowerRule row) = false) := by
  cases h1 : voltageRule row <;> cases h2 : currentRule row <;>
    cases h3 : spikeRule row <;> cases h4 : dropRule row <;>
    cases h5 : zeroPowerRule row <;>
    simp [tagRow, rowReasons, h1, h2, h3, h4, h5]

/-- a sanitized record that survives the anomaly battery untouched
(end-to-end scenario 2 of the spec: only `voltage_out_of_range` fires). -/
def c6row : ARec :=
  { voltage := PF.val 170, current := PF.val 10, power_kw := PF.val 5,
    kw_pct_change := PF.val 0 }

/-- the expected annotated output row for `c6row`. -/
def c6tagged : TaggedRec :=
  { row := c6row, anomaly_reason := some "voltage_out_of_range",
    anomaly_flag := true }

theorem c6row_rules :
    voltageRule c6row = true ∧ currentRule c6row = false ∧
    spikeRule c6row = false ∧ dropRule c6row = false ∧
    zeroPowerRule c6row = false := by
  refine ⟨?_, ?_, ?_, ?_, ?_⟩ <;>
    norm_num [voltageRule, currentRule, spikeRule, dropRule, zeroPowerRule,
      c6row, PF.ltb, PF.gtb, PF.eqb]

theorem applyRules_c6 : applyRules [c6row] = [c6tagged] := by
  obtain ⟨h1, h2, h3, h4, h5⟩ := c6row_rules
  simp [applyRules, tagRow, rowReasons, h1, h2, h3, h4, h5, c6tagged,
    String.intercalate]
  decide

/-- C6: the Anomaly Rule Engine produces exactly one output record per
input record; `anomaly_flag` is true iff at least one of the five rules
triggered on that record, and `anomaly_reason` is null exactly when zero
rules triggered (otherwise non-null). -/
theorem anomaly_flag_iff_rule (df : List ARec) :
    (applyRules df).length = df.length ∧
    (applyRules df).map (fun t => t.row) = df ∧
    ∀ t ∈ applyRules df,
      (t.anomaly_flag = true
        ↔ (voltageRule t.row || currentRule t.row || spikeRule t.row
            || dropRule t.row || zeroPowerRule t.row) = true) ∧
      (t.anomaly_reason = none
        ↔ (voltageRule t.row || currentRule t.row || spikeRule t.row
            || dropRule t.row || zeroPowerRule t.row) = false) := by
  refine ⟨by simp [applyRules], ?_, ?_⟩
  · unfold applyRules
    rw [List.map_map, show ((fun t : TaggedRec => t.row) ∘ tagRow) = id from rfl,
      List.map_id]
  · intro t ht
    rcases List.mem_map.mp ht with ⟨row, _, rfl⟩
    exact tagRow_spec row

/-- Witness for C6 at a concrete record. -/
theorem anomaly_flag_iff_rule_witness :
    c6tagged ∈ applyRules [c6row] ∧
    (c6tagged.anomaly_flag = true
      ↔ (voltageRule c6tagged.row || currentRule c6tagged.row
          || spikeRule c6tagged.row || dropRule c6tagged.row
          || zeroPowerRule c6tagged.row) = true) :=
  have hm : c6tagged ∈ applyRules [c6row] := by
    rw [applyRules_c6]; exact List.mem_singleton_self c6tagged
  ⟨hm, ((anomaly_flag_iff_rule [c6row]).2.2 c6tagged hm).1⟩

/-- a record triggering the first three rules: voltage 300, current 60,
percent change 2.0, power 5. -/
def c7row : ARec :=
  { voltage := PF.val 300, current := PF.val 60, power_kw := PF.val 5,
    kw_pct_change := PF.val 2 }

theorem c7row_rules :
    voltageRule c7row = true ∧ currentRule c7row = true ∧
    spikeRule c7row = true ∧ dropRule c7row = false ∧
    zeroPowerRule c7row = false := by
  refine ⟨?_, ?_, ?_, ?_, ?_⟩ <;>
    norm_num [voltageRule, currentRule, spikeRule, dropRule, zeroPowerRule,
      c7row, PF.ltb, PF.gtb, PF.eqb]

/-- C7: `anomaly_reason` is the names of the triggered rules joined with a
comma in the fixed declared order of `ruleTable`; in particular the record
with voltage 300, current 60 and `kw_pct_change` 2.0 (power 5) yields
exactly "voltage_out_of_range,current_out_of_range,sudden_spike". -/
theorem anomaly_reason_table_order :
    (∀ row : ARec,
      rowReasons row
        = (ruleTable.filter (fun nr => nr.2 row)).map (fun nr => nr.1)) ∧
    applyRules [c7row]
      = [{ row := c7row,
           anomaly_reason :=
             some "voltage_out_of_range,current_out_of_range,sudden_spike",
           anomaly_flag := true }] := by
  constructor
  · intro row
    cases h1 : voltageRule row <;> cases h2 : currentRule row <;>
      cases h3 : spikeRule row <;> cases h4 : dropRule row <;>
      cases h5 : zeroPowerRule row <;>
      simp [rowReasons, ruleTable, List.filter_cons, h1, h2, h3, h4, h5]
  · obtain ⟨h1, h2, h3, h4, h5⟩ := c7row_rules
    simp [applyRules, tagRow, rowReasons, h1, h2, h3, h4, h5,
      String.intercalate]
    decide

/-- a row with every consulted column missing. -/
def allNanRow : ARec :=
  { voltage := PF.nan, current := PF.nan, power_kw := PF.nan,
    kw_pct_change := PF.nan }

/-- C10: the rule engine is total on missing values: a comparison with a
`NaN` field is false, so no rule conditioned on a missing field triggers,
and a record whose consulted fields are all missing comes out unflagged
with a null reason. -/
theorem rules_nan_never_trigger :
    (∀ row : ARec,
      (row.voltage = PF.nan
        → voltageRule row = false ∧ zeroPowerRule row = false) ∧
      (row.current = PF.nan
        → currentRule row = false ∧ zeroPowerRule row = false) ∧
      (row.power_kw = PF.nan → zeroPowerRule row = false) ∧
      (row.kw_pct_change = PF.nan
        → spikeRule row = false ∧ dropRule row = false)) ∧
    applyRules [allNanRow]
      = [{ row := allNanRow, anomaly_reason := none, anomaly_flag := false }] := by
  constructor
  · intro row
    obtain ⟨v, c, p, pc⟩ := row
    refine ⟨fun h => ?_, fun h => ?_, fun h => ?_, fun h => ?_⟩ <;>
      (simp only at h; subst h) <;>
      simp [voltageRule, currentRule, spikeRule, dropRule, zeroPowerRule, PF.gtb]
  · simp [applyRules, tagRow, rowReasons, allNanRow, voltageRule, currentRule,
      spikeRule, dropRule, zeroPowerRule, PF.gtb]

/-- Witness for C10 at the all-missing record. -/
theorem rules_nan_never_trigger_witness :
    voltageRule allNanRow = false ∧ zeroPowerRule allNanRow = false :=
  (rules_nan_never_trigger.1 allNanRow).1 rfl

/-! ### Claim C3: Value Sanitizer output bounds -/

@[simp]
theorem sanitizeRow_voltage (r : CRec) :
    (sanitizeRow r).voltage = nullifyIf (fun v => v < 50) r.voltage := rfl

@[simp]
theorem sanitizeRow_current (r : CRec) :
    (sanitizeRow r).current = nullifyIf (fun c => c < 0) r.current := rfl

@[simp]
theorem sanitizeRow_power_kw (r : CRec) :
    (sanitizeRow r).power_kw = nullifyIf (fun p => p < 0) r.power_kw := rfl

@[simp]
theorem sanitizeRow_power_factor (r : CRec) :
    (sanitizeRow r).power_factor
      = nullifyIf (fun p => p < 0) (clampAboveOne r.power_factor) := rfl

/-- C3: every record emitted by the Value Sanitizer has `voltage`,
`current` and `power_kw` present with `voltage ≥ 50`, `current ≥ 0` and
`power_kw ≥ 0`, and `power_factor` either missing or in `[0, 1]`,
whatever the input values were. -/
theorem clean_values_bounds (df : List CRec) :
    ∀ c ∈ cleanValues df,
      (∃ v, c.voltage = some v ∧ 50 ≤ v) ∧
      (∃ i, c.current = some i ∧ 0 ≤ i) ∧
      (∃ p, c.power_kw = some p ∧ 0 ≤ p) ∧
      (c.power_factor = none ∨
        ∃ w, c.power_factor = some w ∧ 0 ≤ w ∧ w ≤ 1) := by
  intro c hc
  unfold cleanValues at hc
  rw [List.mem_filter] at hc
  obtain ⟨hmem, hcond⟩ := hc
  rcases List.mem_map.mp hmem with ⟨r, _, rfl⟩
  simp only [Bool.and_eq_true, sanitizeRow_voltage, sanitizeRow_current,
    sanitizeRow_power_kw] at hcond
  obtain ⟨⟨hv, hcu⟩, hp⟩ := hcond
  refine ⟨?_, ?_, ?_, ?_⟩
  · rw [sanitizeRow_voltage]
    rcases hrv : r.voltage with _ | v
    · rw [hrv] at hv; simp [nullifyIf] at hv
    · rw [hrv] at hv
      by_cases h50 : v < (50 : ℚ)
      · simp [nullifyIf, h50] at hv
      · exact ⟨v, by simp [nullifyIf, h50], le_of_not_lt h50⟩
  · rw [sanitizeRow_current]
    rcases hrc : r.current with _ | i
    · rw [hrc] at hcu; simp [nullifyIf] at hcu
    · rw [hrc] at hcu
      by_cases h0 : i < (0 : ℚ)
      · simp [nullifyIf, h0] at hcu
      · exact ⟨i, by simp [nullifyIf, h0], le_of_not_lt h0⟩
  · rw [sanitizeRow_power_kw]
    rcases hrp : r.power_kw with _ | p
    · rw [hrp] at hp; simp [nullifyIf] at hp
    · rw [hrp] at hp
      by_cases h0 : p < (0 : ℚ)
      · simp [nullifyIf, h0] at hp
      · exact ⟨p, by simp [nullifyIf, h0], le_of_not_lt h0⟩
  · rw [sanitizeRow_power_factor]
    rcases r.power_factor with _ | w
    · left; rfl
    · by_cases h1 : (1 : ℚ) < w
      · right
        refine ⟨1, ?_, by norm_num, le_refl 1⟩
        simp [clampAboveOne, nullifyIf, h1]
      · by_cases hw0 : w < (0 : ℚ)
        · left; simp [clampAboveOne, nullifyIf, h1, hw0]
        · right
          exact ⟨w, by simp [clampAboveOne, nullifyIf, h1, hw0],
            le_of_not_lt hw0, le_of_not_lt h1⟩

/-- an already-clean record; the sanitizer keeps it unchanged. -/
def c3rec : CRec :=
  { timestamp := 0, meter_id := 1, region := "North", voltage := some 230,
    current := some 10, power_kw := some 5, power_factor := some 1,
    temperature_c := some 20 }

theorem cleanValues_c3 : cleanValues [c3rec] = [c3rec] := by
  norm_num [cleanValues, sanitizeRow, nullifyIf, clampAboveOne, c3rec,
    List.filter_cons]

/-- Witness for C3 at a concrete record. -/
theorem clean_values_bounds_witness :
    c3rec ∈ cleanValues [c3rec] ∧ (∃ v, c3rec.voltage = some v ∧ 50 ≤ v) :=
  have hm : c3rec ∈ cleanValues [c3rec] := by
    rw [cleanValues_c3]; exact List.mem_singleton_self c3rec
  ⟨hm, (clean_values_bounds [c3rec] c3rec hm).1⟩

/-! ### Claim C2: Type Normalizer on an unparseable timestamp -/

/-- a raw record whose timestamp does not parse; every other field is
well-formed. -/
def badTimestampRec : RawRec :=
  { timestamp := RawTS.invalid, meter_id := RawInt.intLike 1,
    region := "North", voltage := RawNum.num 230, current := RawNum.num 10,
    power_kw := RawNum.num 5, power_factor := RawNum.num 1,
    temperature_c := RawNum.num 20 }

/-- Counterexample to C2: on a record whose timestamp does not parse, the
Type Normalizer raises (`pd.to_datetime` defaults to `errors="raise"`)
instead of mapping the timestamp to null and returning normally. -/
theorem clean_types_invalid_raises_cex :
    cleanTypes [badTimestampRec] = Except.error "could not parse timestamp" :=
  rfl

/-- C2 (amended): an input containing a record with an unparseable
timestamp makes the Type Normalizer raise an error; the unparseable
timestamp is never mapped to null. -/
theorem clean_types_invalid_raises (df : List RawRec)
    (h : ∃ r ∈ df, r.timestamp = RawTS.invalid) :
    ∃ msg, cleanTypes df = Except.error msg := by
  induction df with
  | nil => obtain ⟨r, hr, _⟩ := h; cases hr
  | cons a t ih =>
    obtain ⟨r, hr, hts⟩ := h
    rcases List.mem_cons.mp hr with rfl | hr
    · rw [show cleanTypes (r :: t)
          = match toDatetime r.timestamp with
            | Except.error e => Except.error e
            | Except.ok tv =>
              match astypeInt r.meter_id with
              | Except.error e => Except.error e
              | Except.ok m =>
                match cleanTypes t with
                | Except.error e => Except.error e
                | Except.ok cs =>
                  Except.ok ({ timestamp := tv, meter_id := m,
                               region := r.region,
                               voltage := toNumeric r.voltage,
                               current := toNumeric r.current,
                               power_kw := toNumeric r.power_kw,
                               power_factor := toNumeric r.power_factor,
                               temperature_c := toNumeric r.temperature_c }
                    :: cs) from rfl]
      rw [hts]
      exact ⟨"could not parse timestamp", rfl⟩
    · obtain ⟨msg, hmsg⟩ := ih ⟨r, hr, hts⟩
      cases hdt : toDatetime a.timestamp with
      | error e => exact ⟨e, by simp [cleanTypes, hdt]⟩
      | ok tv =>
        cases hai : astypeInt a.meter_id with
        | error e => exact ⟨e, by simp [cleanTypes, hdt, hai]⟩
        | ok m => exact ⟨msg, by simp [cleanTypes, hdt, hai, hmsg]⟩

/-- Witness for the amended C2 at a concrete record. -/
theorem clean_types_invalid_raises_witness :
    (∃ r ∈ [badTimestampRec], r.timestamp = RawTS.invalid) ∧
    ∃ msg, cleanTypes [badTimestampRec] = Except.error msg :=
  have h : ∃ r ∈ [badTimestampRec], r.timestamp = RawTS.invalid :=
    ⟨badTimestampRec, List.mem_singleton_self badTimestampRec, rfl⟩
  ⟨h, clean_types_invalid_raises [badTimestampRec] h⟩

/-! ### Claims C5 and C8: rolling mean shape, first-sample percent change -/

theorem meterRows_getElem? (df : List SanRec) (m : ℤ) (k : ℕ) :
    (meterRows df m)[k]?
      = (((List.insertionSort recLE df).filter
            (fun r => r.meter_id = m))[k]?).map
          (fun r =>
            mkFeatRow (((List.insertionSort recLE df).filter
                (fun r => r.meter_id = m)).map (fun x => x.power_kw)) r k) := by
  rw [engineerFeatures_filter, groupFeat_getElem?]

theorem meterRows_map_power (df : List SanRec) (m : ℤ) :
    (meterRows df m).map (fun fr => fr.power_kw)
      = ((List.insertionSort recLE df).filter
          (fun r => r.meter_id = m)).map (fun x => x.power_kw) := by
  rw [engineerFeatures_filter, groupFeat_map_power]

/-- C5: for every meter, `rolling_kw_1h` at the meter's first sample (index
0 of its time-ordered subsequence) equals that sample's `power_kw`; at
index `k < 4` (the 1-indexed k-th sample with k ≤ 4) it is the arithmetic
mean of the meter's first `k+1` power values; from index 3 on (the
1-indexed 4th sample and later) it is the mean of the trailing 4 samples. -/
theorem rolling_mean_window (df : List SanRec) (m : ℤ) (k : ℕ) (fr : FRec)
    (h : (meterRows df m)[k]? = some fr) :
    (k = 0 → fr.rolling_kw_1h = fr.power_kw) ∧
    (k < 4 → fr.rolling_kw_1h
        = (((meterRows df m).map (fun x => x.power_kw)).take (k + 1)).sum
            / (k + 1 : ℚ)) ∧
    (3 ≤ k → fr.rolling_kw_1h
        = ((((meterRows df m).map (fun x => x.power_kw)).take (k + 1)).drop
              (k - 3)).sum / 4) := by
  rw [meterRows_getElem?] at h
  set g := (List.insertionSort recLE df).filter (fun r => r.meter_id = m)
    with hgdef
  set ps := g.map (fun x => x.power_kw) with hpsdef
  cases hg : g[k]? with
  | none => rw [hg] at h; cases h
  | some r =>
    rw [hg] at h
    have hfr : fr = mkFeatRow ps r k := by
      simpa using h.symm
    have hk : k < g.length := (List.getElem?_eq_some.mp hg).1
    have hpslen : k < ps.length := by
      rw [hpsdef, List.length_map]; exact hk
    have hpower : (meterRows df m).map (fun x => x.power_kw) = ps :=
      meterRows_map_power df m
    have hroll : fr.rolling_kw_1h = winMean ps k := by rw [hfr]; rfl
    refine ⟨?_, ?_, ?_⟩
    · rintro rfl
      cases hps : ps with
      | nil => rw [hps] at hpslen; cases hpslen
      | cons p t =>
        have hp0 : ps[0]? = some r.power_kw := by
          rw [hpsdef, List.getElem?_map, hg]; rfl
        rw [hps] at hp0
        simp only [List.getElem?_cons_zero, Option.some.injEq] at hp0
        rw [hroll, hfr]
        simp [winMean, hps, hp0, mkFeatRow]
    · intro hk4
      rw [hroll, hpower]
      unfold winMean
      have h0 : k + 1 - 4 = 0 := by omega
      rw [h0, List.drop_zero]
      have hlen : (ps.take (k + 1)).length = k + 1 := by
        rw [List.length_take]; omega
      simp only [hlen]
      push_cast
      ring
    · intro hk3
      rw [hroll, hpower]
      unfold winMean
      have h34 : k + 1 - 4 = k - 3 := by omega
      rw [h34]
      have hlen : ((ps.take (k + 1)).drop (k - 3)).length = 4 := by
        rw [List.length_drop, List.length_take]; omega
      simp only [hlen]
      norm_num

/-- C8: for every meter present in the input, the first sample of the
meter's time-ordered subsequence has `kw_pct_change` equal to 0 (the
group-leading `NaN` of `pct_change` is filled with 0). -/
theorem first_sample_pct_change_zero (df : List SanRec) (m : ℤ) (fr : FRec)
    (h : (meterRows df m)[0]? = some fr) :
    fr.kw_pct_change = PF.val 0 := by
  rw [meterRows_getElem?] at h
  cases hg : ((List.insertionSort recLE df).filter
      (fun r => r.meter_id = m))[0]? with
  | none => rw [hg] at h; cases h
  | some r =>
    rw [hg] at h
    have hfr : fr = mkFeatRow
        (((List.insertionSort recLE df).filter
          (fun r => r.meter_id = m)).map (fun x => x.power_kw)) r 0 := by
      simpa using h.symm
    rw [hfr]
    rfl

/-! ### Claim C1: percent change over a zero previous value -/

theorem fillZero_ne_nan (x : PF) : PF.fillZero x ≠ PF.nan := by
  cases x <;> simp [PF.fillZero]

/-- a sample of meter 1 with power exactly 0. -/
def zpr0 : SanRec :=
  { meter_id := 1, timestamp := 0, voltage := 230, current := 10,
    power_kw := 0, power_factor := some 1, temperature_c := some 20 }

/-- the next sample of meter 1, fifteen minutes later, with power 5. -/
def zpr1 : SanRec :=
  { meter_id := 1, timestamp := 15, voltage := 230, current := 10,
    power_kw := 5, power_factor := some 1, temperature_c := some 20 }

/-- two consecutive samples of meter 1 whose first power value is exactly
0 and whose second is 5. -/
def zeroPrevDf : List SanRec := [zpr0, zpr1]

/-- Counterexample to C1: with a previous `power_kw` of exactly 0 and a
nonzero current value, `pct_change().fillna(0)` yields `+inf` (5/0), not
0 — `fillna` fills `NaN` but not infinities, so infinity does appear in
the `kw_pct_change` column. -/
theorem pct_change_zero_prev_cex :
    (engineerFeatures zeroPrevDf).map (fun fr => fr.kw_pct_change)
      = [PF.val 0, PF.pinf] := by
  decide

/-- C1 (amended): when the immediately preceding same-meter sample has
`power_kw` exactly 0, the sample's `kw_pct_change` is 0 only if its own
`power_kw` is also 0 (the 0/0 `NaN` is filled); a nonzero value over a
zero previous value yields `+inf` or `-inf`, which `fillna(0)` does not
touch.  `NaN` itself never appears in the `kw_pct_change` column, but
infinities can. -/
theorem pct_change_zero_prev (df : List SanRec) :
    (∀ fr ∈ engineerFeatures df, fr.kw_pct_change ≠ PF.nan) ∧
    (∀ (m : ℤ) (k : ℕ) (prev cur : FRec),
      (meterRows df m)[k]? = some prev →
      (meterRows df m)[k + 1]? = some cur →
      prev.power_kw = 0 →
      cur.kw_pct_change
        = if cur.power_kw = 0 then PF.val 0
          else if 0 < cur.power_kw then PF.pinf else PF.ninf) := by
  constructor
  · intro fr hfr
    unfold engineerFeatures at hfr
    rcases List.mem_map.mp hfr with ⟨rj, _, rfl⟩
    exact fillZero_ne_nan _
  · intro m k prev cur hprev hcur hzero
    rw [meterRows_getElem?] at hprev hcur
    set g := (List.insertionSort recLE df).filter (fun r => r.meter_id = m)
      with hgdef
    set ps := g.map (fun x => x.power_kw) with hpsdef
    cases hgk : g[k]? with
    | none => rw [hgk] at hprev; cases hprev
    | some rp =>
      cases hgk1 : g[k + 1]? with
      | none => rw [hgk1] at hcur; cases hcur
      | some rc =>
        rw [hgk] at hprev
        rw [hgk1] at hcur
        have hprev' : prev = mkFeatRow ps rp k := by simpa using hprev.symm
        have hcur' : cur = mkFeatRow ps rc (k + 1) := by simpa using hcur.symm
        have hpk : ps.getD k 0 = rp.power_kw := by
          rw [List.getD_eq_getElem?_getD, hpsdef, List.getElem?_map, hgk]
          rfl
        have hpk1 : ps.getD (k + 1) 0 = rc.power_kw := by
          rw [List.getD_eq_getElem?_getD, hpsdef, List.getElem?_map, hgk1]
          rfl
        have hrp0 : rp.power_kw = 0 := by
          rw [hprev'] at hzero; simpa using hzero
        rw [hcur']
        simp only [mkFeatRow_power_kw]
        show pctAt ps (k + 1) = _
        unfold pctAt
        rw [if_neg (Nat.succ_ne_zero k)]
        simp only [Nat.add_sub_cancel]
        rw [hpk, hpk1, hrp0]
        unfold pctChange
        rw [if_pos rfl]
        split_ifs <;> rfl

/-! ### Claim C4: derived features depend only on same-meter records -/

/-- C4: the enriched rows of a meter are a function of that meter's own
records only: two inputs whose meter-`m` records agree in time order (as
produced by the stage's own `(meter_id, timestamp)` sort) yield identical
enriched rows for meter `m`, however the other meters' records differ. -/
theorem features_meter_local (df1 df2 : List SanRec) (m : ℤ)
    (h : List.insertionSort recLE (df1.filter (fun r => r.meter_id = m))
        = List.insertionSort recLE (df2.filter (fun r => r.meter_id = m))) :
    meterRows df1 m = meterRows df2 m := by
  rw [engineerFeatures_filter, engineerFeatures_filter,
    filter_insertionSort recLE _ df1, filter_insertionSort recLE _ df2, h]

/-! ### Claim C9: the Feature Engineer is idempotent -/

/-- C9: re-running the Feature Engineer on its own enriched output, with
the previously derived columns dropped and recomputed, reproduces exactly
the same output (sorting an already-sorted output changes nothing, and the
derived columns are functions of the unchanged base columns). -/
theorem engineer_features_idempotent (df : List SanRec) :
    engineerFeatures ((engineerFeatures df).map stripDerived)
      = engineerFeatures df := by
  have hstrip : (engineerFeatures df).map stripDerived
      = List.insertionSort recLE df := by
    unfold engineerFeatures
    rw [List.map_map]
    rw [show (stripDerived ∘ fun rj : SanRec × ℕ =>
          mkFeatRow (((List.insertionSort recLE df).filter
              (fun x => x.meter_id = rj.1.meter_id)).map
            (fun x => x.power_kw)) rj.1 rj.2) = Prod.fst from rfl]
    exact tagIdx_map_fst [] _
  rw [hstrip]
  unfold engineerFeatures
  rw [(List.sorted_insertionSort recLE df).insertionSort_eq]

/-! ### Witnesses for the feature-engineer claims -/

/-- the power series of meter 1 in `zeroPrevDf`, as the feature engineer
extracts it. -/
def zeroPrevPs : List ℚ :=
  ((List.insertionSort recLE zeroPrevDf).filter
    (fun r => r.meter_id = 1)).map (fun x => x.power_kw)

/-- the enriched first sample of `zeroPrevDf`. -/
def zpF0 : FRec := mkFeatRow zeroPrevPs zpr0 0

/-- the enriched second sample of `zeroPrevDf`. -/
def zpF1 : FRec := mkFeatRow zeroPrevPs zpr1 1

/-- Witness for the amended C1 at the concrete two-sample input. -/
theorem pct_change_zero_prev_witness :
    (meterRows zeroPrevDf 1)[0]? = some zpF0 ∧
    (meterRows zeroPrevDf 1)[1]? = some zpF1 ∧
    zpF1.kw_pct_change = PF.pinf :=
  have h0 : (meterRows zeroPrevDf 1)[0]? = some zpF0 := rfl
  have h1 : (meterRows zeroPrevDf 1)[1]? = some zpF1 := rfl
  ⟨h0, h1, by
    have h := (pct_change_zero_prev zeroPrevDf).2 1 0 zpF0 zpF1 h0 h1 rfl
    rw [h]
    decide⟩

/-- a record of meter 1 shared by the two C4 inputs. -/
def c4shared : SanRec :=
  { meter_id := 1, timestamp := 0, voltage := 230, current := 10,
    power_kw := 4, power_factor := some 1, temperature_c := some 20 }

/-- a record of meter 2 present only in the first C4 input. -/
def c4other1 : SanRec :=
  { meter_id := 2, timestamp := 0, voltage := 231, current := 11,
    power_kw := 6, power_factor := some 1, temperature_c := some 20 }

/-- a different record of meter 2, present only in the second C4 input. -/
def c4other2 : SanRec :=
  { meter_id := 2, timestamp := 5, voltage := 100, current := 2,
    power_kw := 3, power_factor := none, temperature_c := none }

/-- Witness for C4: the two inputs agree on meter 1 and differ on meter 2,
and yield the same enriched rows for meter 1. -/
theorem features_meter_local_witness :
    List.insertionSort recLE
        (([c4shared, c4other1]).filter (fun r => r.meter_id = 1))
      = List.insertionSort recLE
          (([c4other2, c4shared]).filter (fun r => r.meter_id = 1)) ∧
    meterRows [c4shared, c4other1] 1 = meterRows [c4other2, c4shared] 1 :=
  have h : List.insertionSort recLE
        (([c4shared, c4other1]).filter (fun r => r.meter_id = 1))
      = List.insertionSort recLE
          (([c4other2, c4shared]).filter (fun r => r.meter_id = 1)) := by
    decide
  ⟨h, features_meter_local [c4shared, c4other1] [c4other2, c4shared] 1 h⟩

/-- a single sample of meter 7. -/
def c5rec : SanRec :=
  { meter_id := 7, timestamp := 30, voltage := 230, current := 10,
    power_kw := 4, power_factor := some 1, temperature_c := some 20 }

/-- the single-record input for the C5 witness. -/
def c5df : List SanRec := [c5rec]

/-- the enriched single sample of `c5df`. -/
def c5fr : FRec :=
  mkFeatRow (((List.insertionSort recLE c5df).filter
    (fun r => r.meter_id = 7)).map (fun x => x.power_kw)) c5rec 0

/-- Witness for C5 at the concrete single-sample input. -/
theorem rolling_mean_window_witness :
    (meterRows c5df 7)[0]? = some c5fr ∧
    c5fr.rolling_kw_1h = c5fr.power_kw :=
  have h : (meterRows c5df 7)[0]? = some c5fr := rfl
  ⟨h, (rolling_mean_window c5df 7 0 c5fr h).1 rfl⟩

/-- a single sample of meter 3. -/
def c8rec : SanRec :=
  { meter_id := 3, timestamp := 75, voltage := 240, current := 12,
    power_kw := 2, power_factor := none, temperature_c := none }

/-- the single-record input for the C8 witness. -/
def c8df : List SanRec := [c8rec]

/-- the enriched single sample of `c8df`. -/
def c8fr : FRec :=
  mkFeatRow (((List.insertionSort recLE c8df).filter
    (fun r => r.meter_id = 3)).map (fun x => x.power_kw)) c8rec 0

/-- Witness for C8 at the concrete single-sample input. -/
theorem first_sample_pct_change_zero_witness :
    (meterRows c8df 3)[0]? = some c8fr ∧ c8fr.kw_pct_change = PF.val 0 :=
  have h : (meterRows c8df 3)[0]? = some c8fr := rfl
  ⟨h, first_sample_pct_change_zero c8df 3 c8fr h⟩

end PowerGrid
